import Mathlib

/-!
Verification development for the anomaly-localization and cascade-trigger
core of the FOMO-AD → LLM model-cascade demo.

The definitions below are a shallow embedding of the two source files:

* `helpers.ts` — `getBoundingBoxesFromGrid` (8-connected component
  bounding boxes over an occupancy grid) and `highlightAnomalyInImage`
  (grid construction from anomaly cells, box rescaling, padded/clamped
  overlay rectangles, resize + PNG composite via sharp);
* the webserver file — the cascade trigger loop, the per-frame
  recomputation of `anomalySeen`, and the `threshold-override` handler.

JavaScript numbers are modelled as `ℚ` (all arithmetic in the source is
exact on the values that occur), array indices as `ℤ`/`ℕ`, and code that
can throw as `Except`.
-/

namespace Cascade

/-! ## Occupancy grid and bounding boxes (`getBoundingBoxesFromGrid`) -/

/-- A grid-cell position `(x, y)`; `x` is the column, `y` the row, matching
`grid[y][x]` in the source. -/
abbrev Pos := ℤ × ℤ

/-- The bounding box record `{ x, y, w, h }` emitted by
`getBoundingBoxesFromGrid`. -/
structure BBox where
  x : ℤ
  y : ℤ
  w : ℤ
  h : ℤ
deriving DecidableEq, Repr

/-- Number of rows of the grid (`grid.length`). -/
def gridRows (g : List (List ℕ)) : ℕ := g.length

/-- Number of columns of the grid as the source reads it
(`grid[0].length`, `0` when the grid is empty). -/
def gridCols (g : List (List ℕ)) : ℕ := (g.headD []).length

/-- The value stored at `grid[y][x]`; out-of-range reads yield `0`
(JavaScript yields `undefined`, which compares unequal to `1` exactly as
`0` does, and all guarded reads in the source are in range). -/
def cellVal (g : List (List ℕ)) (p : Pos) : ℕ :=
  if 0 ≤ p.1 ∧ 0 ≤ p.2 then (g.getD p.2.toNat []).getD p.1.toNat 0 else 0

/-- `isValid(x, y)` from the source:
`x >= 0 && x < grid[0].length && y >= 0 && y < grid.length`. -/
def isValid (g : List (List ℕ)) (p : Pos) : Bool :=
  0 ≤ p.1 && p.1 < (gridCols g : ℤ) && 0 ≤ p.2 && p.2 < (gridRows g : ℤ)

/-- The 8 neighbour offsets `(dx, dy)` in source order: up, down, left,
right, then the four diagonals. -/
def directions : List (ℤ × ℤ) :=
  [(-1, 0), (1, 0), (0, -1), (0, 1), (-1, -1), (-1, 1), (1, -1), (1, 1)]

/-- Running bounding-box extremes `minX/maxX/minY/maxY` maintained by
`bfs`. -/
structure Box4 where
  minX : ℤ
  maxX : ℤ
  minY : ℤ
  maxY : ℤ
deriving DecidableEq, Repr

/-- Widening the running extremes with a dequeued cell (the
`Math.min`/`Math.max` updates in the BFS loop). -/
def extendBox (b : Box4) (p : Pos) : Box4 :=
  ⟨min b.minX p.1, max b.maxX p.1, min b.minY p.2, max b.maxY p.2⟩

/-- One neighbour check of the BFS inner loop: if the neighbour is valid,
occupied and unvisited, mark it visited and append it to the queue. -/
def visitStep (g : List (List ℕ)) (p : Pos) (acc : Finset Pos × List Pos)
    (d : ℤ × ℤ) : Finset Pos × List Pos :=
  let n : Pos := (p.1 + d.1, p.2 + d.2)
  if isValid g n = true ∧ cellVal g n = 1 ∧ n ∉ acc.1 then
    (insert n acc.1, acc.2 ++ [n])
  else acc

/-- Processing all 8 neighbours of a dequeued cell, threading the visited
set and the queue. -/
def visitNeighbors (g : List (List ℕ)) (p : Pos) (v : Finset Pos)
    (q : List Pos) : Finset Pos × List Pos :=
  directions.foldl (visitStep g p) (v, q)

/-- The BFS `while (queue.length > 0)` loop, with explicit fuel (the fuel
chosen in `bfs` is enough for the queue to drain, see
`bfsLoop_spec`). Each iteration shifts the head of the queue, widens the
running extremes with it and enqueues its fresh neighbours. -/
def bfsLoop (g : List (List ℕ)) :
    ℕ → List Pos → Finset Pos → Box4 → Finset Pos × Box4
  | 0, _, v, b => (v, b)
  | _ + 1, [], v, b => (v, b)
  | fuel + 1, p :: rest, v, b =>
      let b' := extendBox b p
      let vq := visitNeighbors g p v rest
      bfsLoop g fuel vq.2 vq.1 b'

/-- Fuel that always suffices for `bfsLoop`: one unit per cell of the grid
plus slack for the initial queue entry. -/
def bfsFuel (g : List (List ℕ)) : ℕ := gridRows g * gridCols g + 2

/-- `bfs(startX, startY)` from the source: run the traversal from a start
cell (marked visited up front) and emit
`{ x: minX, y: minY, w: maxX - minX + 1, h: maxY - minY + 1 }`. -/
def bfs (g : List (List ℕ)) (start : Pos) (v : Finset Pos) :
    Finset Pos × BBox :=
  let r := bfsLoop g (bfsFuel g) [start] (insert start v)
    ⟨start.1, start.1, start.2, start.2⟩
  (r.1, ⟨r.2.minX, r.2.minY, r.2.maxX - r.2.minX + 1, r.2.maxY - r.2.minY + 1⟩)

/-- One step of the outer scan: start a BFS at every occupied, unvisited
cell and append the resulting box. -/
def scanCell (g : List (List ℕ)) (st : Finset Pos × List BBox) (p : Pos) :
    Finset Pos × List BBox :=
  if cellVal g p = 1 ∧ p ∉ st.1 then
    let r := bfs g p st.1
    (r.1, st.2 ++ [r.2])
  else st

/-- The row-major enumeration of grid cells scanned by the outer loops
(`for y < grid.length`, `for x < grid[y].length`). -/
def allCells (g : List (List ℕ)) : List Pos :=
  (List.range g.length).flatMap fun y =>
    (List.range ((g.getD y []).length)).map fun (x : ℕ) => ((x : ℤ), (y : ℤ))

/-- `getBoundingBoxesFromGrid(grid)`: bounding boxes of the 8-connected
components of the occupied cells, in scan order. -/
def getBoundingBoxesFromGrid (g : List (List ℕ)) : List BBox :=
  ((allCells g).foldl (scanCell g) (∅, [])).2

/-- The grid is rectangular: every row has the width the source reads from
`grid[0].length`. -/
def Rectangular (g : List (List ℕ)) : Prop :=
  ∀ row ∈ g, row.length = gridCols g

instance (g : List (List ℕ)) : Decidable (Rectangular g) := by
  unfold Rectangular; infer_instance

/-- Membership of a cell in an emitted box (the box covers the cell). -/
def inBB (b : BBox) (p : Pos) : Prop :=
  b.x ≤ p.1 ∧ p.1 < b.x + b.w ∧ b.y ≤ p.2 ∧ p.2 < b.y + b.h

instance (b : BBox) (p : Pos) : Decidable (inBB b p) := by
  unfold inBB; infer_instance

/-! ## Image annotation (`highlightAnomalyInImage`)

`sharp` is an external library; its operations are modelled by their
documented semantics: `resize({width, height})` produces exactly the
requested pixel dimensions, `composite` preserves dimensions, and
`.png()` re-encodes in PNG format. -/

/-- Format family of an encoded image. -/
inductive ImgFormat where
  | jpeg
  | png
  | other
deriving DecidableEq, Repr

/-- The input image: its bytes plus the metadata `sharp` reads from it. -/
structure InputImage where
  width : ℕ
  height : ℕ
  format : ImgFormat
  bytes : List ℕ
deriving DecidableEq, Repr

/-- The model geometry used by `highlightAnomalyInImage`
(`model.modelParameters.image_input_width/height`). -/
structure ModelParameters where
  image_input_width : ℕ
  image_input_height : ℕ
deriving DecidableEq, Repr

/-- One entry of `ev.result.visual_anomaly_grid`: a rectangle in
model-input pixel space. -/
structure AnomalyCell where
  x : ℚ
  y : ℚ
  width : ℚ
  height : ℚ
deriving DecidableEq, Repr

/-- The classifier result fields consumed by `highlightAnomalyInImage`;
`none` models an absent `visual_anomaly_grid`. -/
structure ClassifyResult where
  visual_anomaly_grid : Option (List AnomalyCell)
deriving DecidableEq, Repr

/-- A JavaScript runtime error surfaced by the embedded code:
`TypeError` from writing a property of `undefined`, `RangeError` from
constructing an array with an invalid length. -/
inductive JsError where
  | typeError
  | rangeError
deriving DecidableEq, Repr

/-- `Math.round`: round half toward positive infinity. -/
def jsRound (q : ℚ) : ℤ := ⌊q + 1 / 2⌋

/-- `lowestFactor`: `min(width / image_input_width, height / image_input_height)`. -/
def lowestFactor (img : InputImage) (m : ModelParameters) : ℚ :=
  min ((img.width : ℚ) / (m.image_input_width : ℚ))
    ((img.height : ℚ) / (m.image_input_height : ℚ))

/-- Interpret a JavaScript number as an array index: a non-negative
integer, anything else (`1.5`, `-2`, …) is not an index. -/
def isNatIdx (q : ℚ) : Option ℕ :=
  if q.den = 1 ∧ 0 ≤ q.num then some q.num.toNat else none

/-- JavaScript array element assignment at a non-negative integer index:
in-range writes update in place, writes past the end extend the row (the
skipped holes read back as not-`1`, modelled as `0`). -/
def listSetExtend (row : List ℕ) (x : ℕ) (v : ℕ) : List ℕ :=
  if x < row.length then row.set x v
  else row ++ List.replicate (x - row.length) 0 ++ [v]

/-- The write `grid[y][x] = 1` with JavaScript semantics: if `y` is not a
valid row index the row reads as `undefined` and the write throws a
`TypeError`; if `y` is valid but `x` is not a non-negative integer, the
write lands on a non-index property and is invisible to every later read
in the source. -/
def setCell (g : List (List ℕ)) (xq yq : ℚ) : Except JsError (List (List ℕ)) :=
  match isNatIdx yq with
  | none => .error .typeError
  | some y =>
    if h : y < g.length then
      match isNatIdx xq with
      | none => .ok g
      | some x => .ok (g.set y (listSetExtend (g.get ⟨y, h⟩) x 1))
    else .error .typeError

/-- The values taken by the loop variable of
`for (c = start; c < start + extent; c += step)`. For `step > 0` the
loop runs `⌈extent / step⌉` times. For `step ≤ 0` the loop either never
enters (`extent ≤ 0`) — zero iterations, as modelled — or never
terminates (`extent > 0`), which a total model cannot represent. -/
def cellSteps (start extent step : ℚ) : List ℚ :=
  if 0 < step then
    (List.range (⌈extent / step⌉.toNat)).map fun i => start + (i : ℚ) * step
  else []

/-- Marking every grid cell touched by one reported anomaly cell: the two
nested stepping loops over `cellX`/`cellY`, writing
`grid[cellY / cellHeight][cellX / cellWidth] = 1`. -/
def writeCell (cw ch : ℚ) (g : List (List ℕ)) (cell : AnomalyCell) :
    Except JsError (List (List ℕ)) :=
  (cellSteps cell.x cell.width cw).foldlM
    (fun g1 cx =>
      (cellSteps cell.y cell.height ch).foldlM
        (fun g2 cy => setCell g2 (cx / cw) (cy / ch)) g1)
    g

/-- Row count of the occupancy grid: `ToLength` of
`image_input_height / cellHeight` as computed by
`Array.from({ length: ... })` — truncate toward zero, clamp negatives
to `0`. -/
def rowCount (m : ModelParameters) (ch : ℚ) : ℕ :=
  (⌊(m.image_input_height : ℚ) / ch⌋).toNat

/-- `Array(n)` for a numeric `n`: yields an array of that length when
`n` is an integer in `[0, 2^32)`, otherwise throws
`RangeError: invalid array length`. -/
def jsArrayLen (q : ℚ) : Except JsError ℕ :=
  if q.den = 1 ∧ 0 ≤ q.num ∧ q.num < 2 ^ 32 then .ok q.num.toNat
  else .error .rangeError

/-- The grid initialization
`Array.from({ length: H / cellHeight }, () => Array(W / cellWidth).fill(0))`
with JavaScript error semantics: a division by zero of a non-zero
numerator gives `Infinity`, whose `ToLength` exceeds the maximum array
length, so creating the outer array throws `RangeError` (likewise when
the truncated row count reaches `2^32`); each row is built by
`Array(W / cellWidth)`, which throws `RangeError` for an invalid length
— but the row callback only runs when there is at least one row. -/
def gridInit (m : ModelParameters) (cw ch : ℚ) :
    Except JsError (List (List ℕ)) :=
  if ch = 0 ∧ m.image_input_height ≠ 0 then .error .rangeError
  else if 2 ^ 32 ≤ rowCount m ch then .error .rangeError
  else if rowCount m ch = 0 then .ok []
  else if cw = 0 ∧ m.image_input_width ≠ 0 then .error .rangeError
  else
    match jsArrayLen ((m.image_input_width : ℚ) / cw) with
    | .error e => .error e
    | .ok cols => .ok (List.replicate (rowCount m ch) (List.replicate cols 0))

/-- Building the occupancy grid from the reported anomaly cells: cell
size is taken from the first entry, the grid is
`(image_input_height / cellHeight) × (image_input_width / cellWidth)`
zeros (with the array-construction errors of `gridInit`), then every
reported cell is marked. -/
def buildGrid (m : ModelParameters) (cells : List AnomalyCell) :
    Except JsError (List (List ℕ)) :=
  match cells with
  | [] => .ok []
  | c :: rest =>
    match gridInit m c.width c.height with
    | .error e => .error e
    | .ok g0 => (c :: rest).foldlM (writeCell c.width c.height) g0

/-- A rectangle with rational coordinates (model-input or resized-image
pixel space). -/
structure QRect where
  x : ℚ
  y : ℚ
  w : ℚ
  h : ℚ
deriving DecidableEq, Repr

/-- The padded, clamped overlay rectangle computed for one anomaly
bounding box: pad by `strokeWidth`, scale by the factor, pin the origin
to `strokeOffset` and shrink the extent so that
`origin + extent + strokeOffset` stays within the resized canvas. -/
def overlayRect (f : ℚ) (strokeWidth strokeOffset rw rh : ℤ) (bb : QRect) :
    QRect :=
  let x0 := (bb.x - (strokeWidth : ℚ)) * f
  let y0 := (bb.y - (strokeWidth : ℚ)) * f
  let w0 := (bb.w + (strokeWidth : ℚ) * 2) * f
  let h0 := (bb.h + (strokeWidth : ℚ) * 2) * f
  let x1 := if x0 < (strokeOffset : ℚ) then (strokeOffset : ℚ) else x0
  let y1 := if y0 < (strokeOffset : ℚ) then (strokeOffset : ℚ) else y0
  let w1 := if x1 + w0 + (strokeOffset : ℚ) > (rw : ℚ) then
      (rw : ℚ) - x1 - (strokeOffset : ℚ) else w0
  let h1 := if y1 + h0 + (strokeOffset : ℚ) > (rh : ℚ) then
      (rh : ℚ) - y1 - (strokeOffset : ℚ) else h0
  ⟨x1, y1, w1, h1⟩

/-- The observable result of `highlightAnomalyInImage`: either the input
buffer returned as-is, or the resized image composited with the SVG
overlay and re-encoded as PNG. -/
inductive HighlightOutput where
  | originalImage (img : InputImage)
  | rendered (width height : ℤ) (format : ImgFormat) (overlays : List QRect)
      (strokeWidth : ℤ)
deriving DecidableEq, Repr

/-- Pixel width of the returned image. -/
def HighlightOutput.pixelWidth : HighlightOutput → ℤ
  | .originalImage img => img.width
  | .rendered w _ _ _ _ => w

/-- Pixel height of the returned image. -/
def HighlightOutput.pixelHeight : HighlightOutput → ℤ
  | .originalImage img => img.height
  | .rendered _ h _ _ _ => h

/-- Format family of the returned image. -/
def HighlightOutput.outFormat : HighlightOutput → ImgFormat
  | .originalImage img => img.format
  | .rendered _ _ fmt _ _ => fmt

/-- `highlightAnomalyInImage(img, ev, model)`: with a non-empty anomaly
grid, build the occupancy grid, merge boxes, rescale them to model-input
pixels, compute padded/clamped overlays and return the resized PNG
composite; otherwise return the input unchanged. -/
def highlightAnomalyInImage (img : InputImage) (ev : ClassifyResult)
    (m : ModelParameters) : Except JsError HighlightOutput :=
  let f := lowestFactor img m
  let resizedWidth := jsRound ((m.image_input_width : ℚ) * f)
  let resizedHeight := jsRound ((m.image_input_height : ℚ) * f)
  match ev.visual_anomaly_grid with
  | some (c :: rest) =>
    let cellWidth := c.width
    let cellHeight := c.height
    match buildGrid m (c :: rest) with
    | .error e => .error e
    | .ok grid =>
      let anomalyBbs := (getBoundingBoxesFromGrid grid).map fun b =>
        QRect.mk ((b.x : ℚ) * cellWidth) ((b.y : ℚ) * cellHeight)
          ((b.w : ℚ) * cellWidth) ((b.h : ℚ) * cellHeight)
      let strokeWidth := ⌊2 * f⌋
      let strokeOffset := ⌈1 * f⌉
      let overlays := anomalyBbs.map
        (overlayRect f strokeWidth strokeOffset resizedWidth resizedHeight)
      .ok (.rendered resizedWidth resizedHeight .png overlays strokeWidth)
  | _ => .ok (.originalImage img)

/-! ## Cascade trigger loop and control handlers (webserver source)

The trigger loop is a single cooperative task; its suspension points
(`await sleep(...)` and the awaited downstream call) and the concurrently
running event handlers are modelled as an interleaving of labelled
events applied to the shared state. -/

/-- Program counter of the trigger-loop task: at the top-of-loop sleep,
in the 500 ms settle sleep, or awaiting the downstream call. -/
inductive LoopPc where
  | sleeping
  | settling
  | calling
deriving DecidableEq, Repr

/-- The shared mutable state of the webserver: the loop position, the
flags written by event handlers, and instrumentation counting downstream
requests (`inFlight` = requests started and not yet finished). -/
structure CascadeState where
  pc : LoopPc
  anomalySeen : Bool
  cascadeEnabled : Bool
  promptNonempty : Bool
  isRunningOpenAI : Bool
  inFlight : ℕ
  callsIssued : ℕ
deriving DecidableEq, Repr

/-- Startup state: loop at its top, no anomaly seen, cascade disabled,
`prompt = BASE_PROMPT` (non-empty), `isRunningOpenAI = false`. -/
def initCascadeState : CascadeState :=
  ⟨.sleeping, false, false, true, false, 0, 0⟩

/-- The scheduler events: the loop's first sleep expiring, the settle
sleep expiring, the downstream call finishing (response or failure), a
classifier result arriving (with or without anomaly cells), and the
socket control events. -/
inductive CascadeEv where
  | loopWake
  | settleDone
  | callDone
  | result (nonempty : Bool)
  | cascadeOn
  | cascadeOff
  | setPrompt (nonempty : Bool)
deriving DecidableEq, Repr

/-- One scheduler step. `loopWake`: the loop re-checks
`anomalySeen`, `cascadeEnabled` and `prompt`, and either enters the
settle sleep or loops. `settleDone`: the loop re-checks `anomalySeen`
and either starts the downstream call or returns to the top.
`callDone`: the awaited call finished (either branch of the
`try`/`catch`) and the loop returns to the top. `result b`: the handler
recomputes `anomalySeen = (grid non-empty) && !isRunningOpenAI`; the
source never assigns `isRunningOpenAI`, so no event changes it. -/
def stepCascade (s : CascadeState) : CascadeEv → CascadeState
  | .loopWake =>
    if s.pc = .sleeping then
      if s.anomalySeen && s.cascadeEnabled && s.promptNonempty then
        { s with pc := .settling }
      else s
    else s
  | .settleDone =>
    if s.pc = .settling then
      if s.anomalySeen then
        { s with
            pc := .calling
            inFlight := s.inFlight + 1
            callsIssued := s.callsIssued + 1 }
      else { s with pc := .sleeping }
    else s
  | .callDone =>
    if s.pc = .calling then { s with pc := .sleeping, inFlight := s.inFlight - 1 }
    else s
  | .result b => { s with anomalySeen := b && !s.isRunningOpenAI }
  | .cascadeOn => { s with cascadeEnabled := true }
  | .cascadeOff => { s with cascadeEnabled := false }
  | .setPrompt b => { s with promptNonempty := b }

/-- Run the system from startup under a given event schedule. -/
def runCascade (evs : List CascadeEv) : CascadeState :=
  evs.foldl stepCascade initCascadeState

/-! ## `threshold-override` handler -/

/-- The cached per-learning-block threshold object
(`{ id, min_anomaly_score }`). -/
structure ThresholdObj where
  id : ℤ
  min_anomaly_score : ℚ
deriving DecidableEq, Repr

/-- The observables of the JavaScript string argument: its truthiness
(non-empty) and `Number(arg)` (`none` models `NaN`). -/
structure JsStringVal where
  isTruthy : Bool
  toNumber : Option ℚ
deriving DecidableEq, Repr

/-- The `threshold-override` socket handler acting on the cached
threshold: forward to the backend only for a truthy, numeric argument
that differs from the cached score (and only when a threshold object
exists); update the cache only when the backend call succeeds — a
backend failure is caught and leaves the cache untouched. -/
def thresholdOverrideHandler (arg : JsStringVal) (backendOk : Bool)
    (st : Option ThresholdObj) : Option ThresholdObj :=
  match st with
  | none => none
  | some t =>
    match arg.isTruthy, arg.toNumber with
    | true, some v =>
      if v = t.min_anomaly_score then some t
      else if backendOk then some { t with min_anomaly_score := v }
      else some t
    | _, _ => some t

/-! ## Auxiliary predicates used by the statements -/

/-- The in-bounds grid cells as a finite set (proof device for fuel
accounting; not part of the source). -/
def boundsF (g : List (List ℕ)) : Finset Pos :=
  Finset.Icc (0 : ℤ) ((gridCols g : ℤ) - 1) ×ˢ
    Finset.Icc (0 : ℤ) ((gridRows g : ℤ) - 1)

/-- Membership of a cell in the running extremes box. -/
def inBox4 (b : Box4) (p : Pos) : Prop :=
  b.minX ≤ p.1 ∧ p.1 ≤ b.maxX ∧ b.minY ≤ p.2 ∧ p.2 ≤ b.maxY

/-- The running extremes are ordered and stay inside the grid. -/
def boxInv (g : List (List ℕ)) (b : Box4) : Prop :=
  0 ≤ b.minX ∧ b.minX ≤ b.maxX ∧ b.maxX < (gridCols g : ℤ) ∧
    0 ≤ b.minY ∧ b.minY ≤ b.maxY ∧ b.maxY < (gridRows g : ℤ)

/-- A well-formed emitted box: positive extent, entirely inside the
grid. -/
def wellFormedBB (g : List (List ℕ)) (b : BBox) : Prop :=
  0 ≤ b.x ∧ 0 ≤ b.y ∧ 1 ≤ b.w ∧ 1 ≤ b.h ∧
    b.x + b.w ≤ (gridCols g : ℤ) ∧ b.y + b.h ≤ (gridRows g : ℤ)

instance (g : List (List ℕ)) (b : BBox) : Decidable (wellFormedBB g b) := by
  unfold wellFormedBB; infer_instance

/-- The first reported cell's row position is inconsistent with the
derived grid: `y / cellHeight` is fractional, negative, or at/past the
row count. -/
def badRowIdx (m : ModelParameters) (c : AnomalyCell) : Bool :=
  match isNatIdx (c.y / c.height) with
  | none => true
  | some y => decide (rowCount m c.height ≤ y)

end Cascade

deriving instance DecidableEq for Except

namespace Cascade

/-! # Theorems

First the supporting lemmas, then one theorem per claim (with witnesses
and counterexamples where required). -/

/-! ## Cascade trigger loop: invariants -/

/-- The loop-level invariant: the source never assigns
`isRunningOpenAI`, and a downstream request is outstanding exactly while
the single loop task sits at the awaited call. -/
def CascadeInv (s : CascadeState) : Prop :=
  s.isRunningOpenAI = false ∧
    s.inFlight = (if s.pc = .calling then 1 else 0)

lemma stepCascade_inv (s : CascadeState) (e : CascadeEv)
    (h : CascadeInv s) : CascadeInv (stepCascade s e) := by
  obtain ⟨h1, h2⟩ := h
  cases e <;>
    simp only [stepCascade, CascadeInv] <;>
    split_ifs <;>
    simp_all [CascadeInv]

lemma foldl_stepCascade_inv :
    ∀ (evs : List CascadeEv) (s : CascadeState), CascadeInv s →
      CascadeInv (evs.foldl stepCascade s) := by
  intro evs
  induction evs with
  | nil => intro s h; exact h
  | cons e evs ih =>
    intro s h
    exact ih _ (stepCascade_inv s e h)

lemma runCascade_inv (evs : List CascadeEv) : CascadeInv (runCascade evs) :=
  foldl_stepCascade_inv evs initCascadeState ⟨rfl, rfl⟩

/-! ## Claim theorems: trigger loop -/

/-- Claim C2: in every execution of the trigger loop (any interleaving of
loop wakeups, call completions, classifier results and control events),
at most one downstream request is outstanding at any time, and a step
that starts a new request can only happen when no request is
outstanding. -/
theorem cascade_at_most_one_in_flight (evs : List CascadeEv) :
    (runCascade evs).inFlight ≤ 1 ∧
      (∀ e : CascadeEv,
        (runCascade evs).inFlight < (stepCascade (runCascade evs) e).inFlight →
        (runCascade evs).inFlight = 0) := by
  obtain ⟨h1, h2⟩ := runCascade_inv evs
  constructor
  · rw [h2]; split <;> omega
  · intro e he
    by_contra hne
    have hpc : (runCascade evs).pc = .calling := by
      by_contra hpc
      rw [h2, if_neg hpc] at hne
      exact hne rfl
    cases e <;>
      simp only [stepCascade, hpc, reduceCtorEq, if_true, if_false,
        reduceIte] at he <;>
      omega

/-- Witness for C2 at a concrete schedule: after an anomaly result,
enabling the cascade and the loop wakeup, the settle step starts a call,
and the theorem yields that no request was outstanding before it. -/
theorem cascade_at_most_one_in_flight_witness :
    (runCascade [CascadeEv.result true, CascadeEv.cascadeOn,
        CascadeEv.loopWake]).inFlight <
      (stepCascade (runCascade [CascadeEv.result true, CascadeEv.cascadeOn,
        CascadeEv.loopWake]) CascadeEv.settleDone).inFlight ∧
    (runCascade [CascadeEv.result true, CascadeEv.cascadeOn,
        CascadeEv.loopWake]).inFlight = 0 :=
  ⟨by decide,
    (cascade_at_most_one_in_flight [CascadeEv.result true, CascadeEv.cascadeOn,
      CascadeEv.loopWake]).2 CascadeEv.settleDone (by decide)⟩

/-- Claim C7 (code bug): with a downstream call in flight
(`inFlight = 1`), a classifier result carrying a non-empty anomaly grid
sets `anomalySeen` to `true`, not `false` — the guard variable
`isRunningOpenAI` is never assigned in the source, so the signal re-arms
while the call is in flight. -/
theorem anomaly_signal_rearms_during_call :
    (runCascade [CascadeEv.result true, CascadeEv.cascadeOn, CascadeEv.loopWake,
      CascadeEv.settleDone, CascadeEv.result true]).inFlight = 1 ∧
    (runCascade [CascadeEv.result true, CascadeEv.cascadeOn, CascadeEv.loopWake,
      CascadeEv.settleDone, CascadeEv.result true]).anomalySeen = true := by
  decide

/-- Claim C8: if the anomaly signal has cleared when the settle delay
elapses, the loop returns to its top (idle) and the downstream-call
counters are untouched: that episode issues zero calls. -/
theorem settle_recheck_returns_idle (s : CascadeState)
    (h1 : s.pc = .settling) (h2 : s.anomalySeen = false) :
    (stepCascade s .settleDone).pc = .sleeping ∧
      (stepCascade s .settleDone).callsIssued = s.callsIssued ∧
      (stepCascade s .settleDone).inFlight = s.inFlight := by
  simp [stepCascade, h1, h2]

/-- Witness for C8 at the state reached by: anomaly result, enable,
loop wakeup, then a clean result during the settle delay. -/
theorem settle_recheck_returns_idle_witness :
    (runCascade [CascadeEv.result true, CascadeEv.cascadeOn, CascadeEv.loopWake,
        CascadeEv.result false]).pc = .settling ∧
    (runCascade [CascadeEv.result true, CascadeEv.cascadeOn, CascadeEv.loopWake,
        CascadeEv.result false]).anomalySeen = false ∧
    (stepCascade (runCascade [CascadeEv.result true, CascadeEv.cascadeOn,
        CascadeEv.loopWake, CascadeEv.result false]) .settleDone).pc = .sleeping ∧
    (stepCascade (runCascade [CascadeEv.result true, CascadeEv.cascadeOn,
        CascadeEv.loopWake, CascadeEv.result false]) .settleDone).callsIssued =
      (runCascade [CascadeEv.result true, CascadeEv.cascadeOn, CascadeEv.loopWake,
        CascadeEv.result false]).callsIssued :=
  ⟨by decide, by decide,
    (settle_recheck_returns_idle _ (by decide) (by decide)).1,
    (settle_recheck_returns_idle _ (by decide) (by decide)).2.1⟩

/-! ## Claim theorems: threshold handler -/

/-- Claim C9: the cached threshold is unchanged on a falsy argument, a
non-numeric argument, a value equal to the cached score, or a backend
failure; and whenever the handler changes the cache at all, the backend
call succeeded and the cache holds exactly the parsed value. -/
theorem threshold_override_safe (arg : JsStringVal) (backendOk : Bool)
    (st : Option ThresholdObj) :
    ((arg.isTruthy = false ∨ arg.toNumber = none ∨ backendOk = false ∨
        (∃ t, st = some t ∧ arg.toNumber = some t.min_anomaly_score)) →
      thresholdOverrideHandler arg backendOk st = st) ∧
    (∀ t v, st = some t → arg.toNumber = some v →
      thresholdOverrideHandler arg backendOk st ≠ st →
      backendOk = true ∧
        thresholdOverrideHandler arg backendOk st =
          some { t with min_anomaly_score := v }) := by
  obtain ⟨tr, num⟩ := arg
  cases st with
  | none =>
    refine ⟨fun _ => rfl, ?_⟩
    intro t v ht
    exact absurd ht (by simp)
  | some t =>
    cases tr with
    | false =>
      refine ⟨fun _ => rfl, ?_⟩
      intro t' v ht' hv hne
      exact absurd rfl hne
    | true =>
      cases num with
      | none =>
        refine ⟨fun _ => rfl, ?_⟩
        intro t' v ht' hv
        exact absurd hv (by simp)
      | some v0 =>
        by_cases hveq : v0 = t.min_anomaly_score
        · have heq : thresholdOverrideHandler ⟨true, some v0⟩ backendOk (some t) =
              some t := by
            simp [thresholdOverrideHandler, hveq]
          refine ⟨fun _ => heq, ?_⟩
          intro t' v ht' hv hne
          exact absurd heq hne
        · cases backendOk with
          | false =>
            have heq : thresholdOverrideHandler ⟨true, some v0⟩ false (some t) =
                some t := by
              simp [thresholdOverrideHandler, hveq]
            refine ⟨fun _ => heq, ?_⟩
            intro t' v ht' hv hne
            exact absurd heq hne
          | true =>
            have heq : thresholdOverrideHandler ⟨true, some v0⟩ true (some t) =
                some { t with min_anomaly_score := v0 } := by
              simp [thresholdOverrideHandler, hveq]
            constructor
            · rintro (h | h | h | ⟨t', ht', hv'⟩)
              · exact absurd h (by simp)
              · exact absurd h (by simp)
              · exact absurd h (by simp)
              · obtain rfl : t = t' := by simpa using ht'
                exact absurd (by simpa using hv') hveq
            · intro t' v ht' hv hne
              obtain rfl : t = t' := by simpa using ht'
              obtain rfl : v = v0 := by simpa using hv.symm
              exact ⟨rfl, heq⟩

/-- Witness for C9: a numeric, differing value with a failing backend
leaves the cache untouched. -/
theorem threshold_override_safe_witness :
    thresholdOverrideHandler ⟨true, some 3⟩ false (some ⟨4, 2⟩) =
      some ⟨4, 2⟩ :=
  (threshold_override_safe ⟨true, some 3⟩ false (some ⟨4, 2⟩)).1
    (Or.inr (Or.inr (Or.inl rfl)))

/-! ## Claim theorems: annotation pipeline

The Batteries rational operations are `@[irreducible]` by default, which
only blocks elaborator-side evaluation; restoring the default
transparency lets `decide` evaluate the pipeline on concrete inputs. -/

attribute [local semireducible] Rat.add Rat.mul Rat.inv Rat.sub

/-- Claim C5: every padded overlay rectangle produced by the clamping
code keeps at least `strokeOffset` margin on all four sides of the
resized canvas, for arbitrary boxes, scale factors, stroke parameters
and canvas dimensions. -/
theorem overlay_rect_clamped (f : ℚ) (sw so rw rh : ℤ) (bb : QRect) :
    (so : ℚ) ≤ (overlayRect f sw so rw rh bb).x ∧
      (overlayRect f sw so rw rh bb).x + (overlayRect f sw so rw rh bb).w +
        (so : ℚ) ≤ (rw : ℚ) ∧
      (so : ℚ) ≤ (overlayRect f sw so rw rh bb).y ∧
      (overlayRect f sw so rw rh bb).y + (overlayRect f sw so rw rh bb).h +
        (so : ℚ) ≤ (rh : ℚ) := by
  simp only [overlayRect]
  split_ifs <;> refine ⟨?_, ?_, ?_, ?_⟩ <;> linarith

/-- Claim C4: with zero anomaly cells (absent or empty
`visual_anomaly_grid`), the function returns the input image itself —
byte-identical, no resize materialized, no compositing. -/
theorem highlight_empty_identity (img : InputImage) (ev : ClassifyResult)
    (m : ModelParameters)
    (h : ev.visual_anomaly_grid = none ∨ ev.visual_anomaly_grid = some []) :
    highlightAnomalyInImage img ev m = .ok (.originalImage img) := by
  obtain ⟨o⟩ := ev
  rcases h with h | h <;> (simp only at h; subst h; rfl)

/-- Witness for C4 at a concrete image and model. -/
theorem highlight_empty_identity_witness :
    highlightAnomalyInImage ⟨640, 480, .jpeg, [7, 7, 7]⟩ ⟨none⟩ ⟨96, 96⟩ =
      .ok (.originalImage ⟨640, 480, .jpeg, [7, 7, 7]⟩) :=
  highlight_empty_identity ⟨640, 480, .jpeg, [7, 7, 7]⟩ ⟨none⟩ ⟨96, 96⟩
    (Or.inl rfl)

/-- Counterexample to claim C3: a 640×480 JPEG input with a 100×100
model and one anomaly cell yields a 480×480 PNG — neither the pixel
dimensions nor the format family of the input are preserved. -/
theorem highlight_changes_dims_cex :
    (highlightAnomalyInImage ⟨640, 480, .jpeg, []⟩
        ⟨some [⟨0, 0, 20, 20⟩]⟩ ⟨100, 100⟩).toOption.map
        HighlightOutput.pixelWidth = some 480 ∧
      ((480 : ℤ) ≠ (640 : ℤ)) ∧
      (highlightAnomalyInImage ⟨640, 480, .jpeg, []⟩
        ⟨some [⟨0, 0, 20, 20⟩]⟩ ⟨100, 100⟩).toOption.map
        HighlightOutput.outFormat = some .png ∧
      ImgFormat.png ≠ ImgFormat.jpeg := by
  decide

/-- Claim C3 amended: the dimensions and format are preserved only on
the zero-anomaly path; with a non-empty grid the successful result is a
PNG of `round(modelDim × min(imgW/modelW, imgH/modelH))` pixels per
side. -/
theorem highlight_output_shape (img : InputImage) (m : ModelParameters)
    (ev : ClassifyResult) (out : HighlightOutput)
    (h : highlightAnomalyInImage img ev m = .ok out) :
    ((ev.visual_anomaly_grid = none ∨ ev.visual_anomaly_grid = some []) →
      out = .originalImage img) ∧
    (∀ c rest, ev.visual_anomaly_grid = some (c :: rest) →
      out.outFormat = .png ∧
        out.pixelWidth =
          jsRound ((m.image_input_width : ℚ) * lowestFactor img m) ∧
        out.pixelHeight =
          jsRound ((m.image_input_height : ℚ) * lowestFactor img m)) := by
  obtain ⟨o⟩ := ev
  constructor
  · rintro (ho | ho) <;> (simp only at ho; subst ho) <;>
      (simp only [highlightAnomalyInImage, Except.ok.injEq] at h; exact h.symm)
  · intro c rest ho
    simp only at ho
    subst ho
    simp only [highlightAnomalyInImage] at h
    rcases hb : buildGrid m (c :: rest) with e | grid <;> rw [hb] at h
    · cases h
    · simp only [Except.ok.injEq] at h
      subst h
      exact ⟨rfl, rfl, rfl⟩

/-- Witness for C3's amended theorem: a 200×200 PNG input, 100×100
model, one 50×50 cell; the output is a 200×200 PNG with one clamped
overlay. -/
theorem highlight_output_shape_witness :
    highlightAnomalyInImage ⟨200, 200, .png, []⟩ ⟨some [⟨0, 0, 50, 50⟩]⟩
        ⟨100, 100⟩ = .ok (.rendered 200 200 .png [⟨2, 2, 116, 116⟩] 4) ∧
      (HighlightOutput.rendered 200 200 .png [⟨2, 2, 116, 116⟩] 4).outFormat =
        .png ∧
      (HighlightOutput.rendered 200 200 .png [⟨2, 2, 116, 116⟩] 4).pixelWidth =
        jsRound ((100 : ℚ) *
          lowestFactor ⟨200, 200, .png, []⟩ ⟨100, 100⟩) := by
  refine ⟨by decide, ?_, ?_⟩
  · exact ((highlight_output_shape ⟨200, 200, .png, []⟩ ⟨100, 100⟩
      ⟨some [⟨0, 0, 50, 50⟩]⟩ (.rendered 200 200 .png [⟨2, 2, 116, 116⟩] 4)
      (by decide)).2 ⟨0, 0, 50, 50⟩ [] rfl).1
  · exact ((highlight_output_shape ⟨200, 200, .png, []⟩ ⟨100, 100⟩
      ⟨some [⟨0, 0, 50, 50⟩]⟩ (.rendered 200 200 .png [⟨2, 2, 116, 116⟩] 4)
      (by decide)).2 ⟨0, 0, 50, 50⟩ [] rfl).2.1

/-- A stepping loop whose extent equals its step runs exactly once, at
the start value. -/
lemma cellSteps_self (a w : ℚ) (hw : 0 < w) : cellSteps a w w = [a] := by
  unfold cellSteps
  rw [if_pos hw, div_self (ne_of_gt hw), Int.ceil_one]
  simp [List.range_succ]

/-- A write whose row position is not a valid index of the grid throws. -/
lemma setCell_badRow (g : List (List ℕ)) (xq yq : ℚ)
    (hbad : ∀ y, isNatIdx yq = some y → g.length ≤ y) :
    setCell g xq yq = .error .typeError := by
  rcases h : isNatIdx yq with _ | y
  · simp only [setCell, h]
  · have hy := hbad y h
    simp only [setCell, h]
    rw [dif_neg (by omega)]

/-- Every successful grid initialization has either the derived row
count (all rows built) or zero rows (the row callback never ran). -/
lemma gridInit_ok_length {m : ModelParameters} {cw ch : ℚ}
    {g0 : List (List ℕ)} (hg : gridInit m cw ch = .ok g0) :
    g0.length = rowCount m ch ∨ g0.length = 0 := by
  unfold gridInit at hg
  by_cases h1 : ch = 0 ∧ m.image_input_height ≠ 0
  · rw [if_pos h1] at hg
    exact Except.noConfusion hg
  · rw [if_neg h1] at hg
    by_cases h2 : 2 ^ 32 ≤ rowCount m ch
    · rw [if_pos h2] at hg
      exact Except.noConfusion hg
    · rw [if_neg h2] at hg
      by_cases h3 : rowCount m ch = 0
      · rw [if_pos h3] at hg
        obtain rfl : ([] : List (List ℕ)) = g0 := by
          simpa only [Except.ok.injEq] using hg
        exact Or.inr rfl
      · rw [if_neg h3] at hg
        by_cases h4 : cw = 0 ∧ m.image_input_width ≠ 0
        · rw [if_pos h4] at hg
          exact Except.noConfusion hg
        · rw [if_neg h4] at hg
          rcases hj : jsArrayLen ((m.image_input_width : ℚ) / cw)
            with e' | cols <;> simp only [hj] at hg
          · exact Except.noConfusion hg
          · obtain rfl : List.replicate (rowCount m ch)
                (List.replicate cols 0) = g0 := by
              simpa only [Except.ok.injEq] using hg
            exact Or.inl (List.length_replicate ..)

/-- Counterexample to claim C6: a single cell at `y = 120` with height
`20` on a 100×100 model (derived grid has 5 rows, row index 6) makes the
operation throw a `TypeError`; it does not behave as the zero-anomaly
path (which returns the input). -/
theorem inconsistent_cells_crash_cex :
    highlightAnomalyInImage ⟨640, 480, .jpeg, []⟩ ⟨some [⟨0, 120, 20, 20⟩]⟩
        ⟨100, 100⟩ = .error .typeError ∧
      (Except.error JsError.typeError ≠
        (Except.ok (HighlightOutput.originalImage ⟨640, 480, .jpeg, []⟩) :
          Except JsError HighlightOutput)) := by
  decide

/-- Claim C6 amended: when the first reported cell has positive extent
and a row position inconsistent with the derived grid (fractional,
negative, or at/past the row count), the annotation operation throws —
a `RangeError` already at grid construction when the derived column
length is not a valid array length (or the row count is out of array
range), otherwise a `TypeError` at the first row write — instead of
treating the frame as having zero anomalies. -/
theorem highlight_bad_row_throws (img : InputImage) (m : ModelParameters)
    (c : AnomalyCell) (rest : List AnomalyCell)
    (hw : 0 < c.width) (hh : 0 < c.height) (hbad : badRowIdx m c = true) :
    ∃ e, highlightAnomalyInImage img ⟨some (c :: rest)⟩ m = .error e := by
  rcases hg : gridInit m c.width c.height with e | g0
  · refine ⟨e, ?_⟩
    have hb : buildGrid m (c :: rest) = .error e := by
      simp only [buildGrid, hg]
    simp only [highlightAnomalyInImage]
    rw [hb]
  · have hlen : ∀ y, isNatIdx (c.y / c.height) = some y → g0.length ≤ y := by
      intro y hy
      have hbad' : rowCount m c.height ≤ y := by
        unfold badRowIdx at hbad
        rw [hy] at hbad
        simpa only [decide_eq_true_eq] using hbad
      rcases gridInit_ok_length hg with h | h <;> omega
    have hset : setCell g0 (c.x / c.width) (c.y / c.height) =
        .error .typeError :=
      setCell_badRow g0 (c.x / c.width) (c.y / c.height) hlen
    have hwrite : writeCell c.width c.height g0 c = .error .typeError := by
      unfold writeCell
      rw [cellSteps_self c.x c.width hw, cellSteps_self c.y c.height hh]
      simp only [List.foldlM_cons, List.foldlM_nil, hset]
      rfl
    have hgrid : buildGrid m (c :: rest) = .error .typeError := by
      simp only [buildGrid, hg]
      rw [List.foldlM_cons, hwrite]
      rfl
    refine ⟨.typeError, ?_⟩
    simp only [highlightAnomalyInImage]
    rw [hgrid]

/-- Witness for C6's amended theorem: a cell at `y = 30` with height `20`
(fractional row index 1.5) throws. -/
theorem highlight_bad_row_throws_witness :
    ∃ e, highlightAnomalyInImage ⟨320, 240, .png, []⟩
      ⟨some [⟨0, 30, 20, 20⟩]⟩ ⟨100, 100⟩ = .error e :=
  highlight_bad_row_throws ⟨320, 240, .png, []⟩ ⟨100, 100⟩ ⟨0, 30, 20, 20⟩ []
    (by norm_num) (by norm_num) (by decide)

/-! ## BFS invariants for `getBoundingBoxesFromGrid` -/

lemma mem_boundsF {g : List (List ℕ)} {p : Pos} :
    p ∈ boundsF g ↔ isValid g p = true := by
  simp only [boundsF, Finset.mem_product, Finset.mem_Icc, isValid,
    Bool.and_eq_true, decide_eq_true_eq]
  omega

lemma card_boundsF (g : List (List ℕ)) :
    (boundsF g).card = gridCols g * gridRows g := by
  simp only [boundsF, Finset.card_product, Int.card_Icc]
  have h1 : ((gridCols g : ℤ) - 1 + 1 - 0).toNat = gridCols g := by omega
  have h2 : ((gridRows g : ℤ) - 1 + 1 - 0).toNat = gridRows g := by omega
  rw [h1, h2]

lemma visitStep_eq (g : List (List ℕ)) (p : Pos) (acc : Finset Pos × List Pos)
    (d : ℤ × ℤ) :
    visitStep g p acc d =
      if isValid g (p.1 + d.1, p.2 + d.2) = true ∧
          cellVal g (p.1 + d.1, p.2 + d.2) = 1 ∧
          (p.1 + d.1, p.2 + d.2) ∉ acc.1 then
        (insert (p.1 + d.1, p.2 + d.2) acc.1,
          acc.2 ++ [(p.1 + d.1, p.2 + d.2)])
      else acc :=
  rfl

/-- Invariants of the fold over the neighbour offsets: the visited set
only grows, queued cells stay queued, every enqueued cell is visited and
valid (or was already queued), every visited cell is old or queued, and
the quantity `queue length + unvisited in-bounds cells` is conserved. -/
lemma visitFold_spec (g : List (List ℕ)) (p : Pos) :
    ∀ (ds : List (ℤ × ℤ)) (v : Finset Pos) (q : List Pos),
      v ⊆ (ds.foldl (visitStep g p) (v, q)).1 ∧
      (∀ a ∈ q, a ∈ (ds.foldl (visitStep g p) (v, q)).2) ∧
      (∀ a ∈ (ds.foldl (visitStep g p) (v, q)).2,
        a ∈ q ∨ (a ∈ (ds.foldl (visitStep g p) (v, q)).1 ∧
          isValid g a = true)) ∧
      (∀ a ∈ (ds.foldl (visitStep g p) (v, q)).1,
        a ∈ v ∨ a ∈ (ds.foldl (visitStep g p) (v, q)).2) ∧
      ((ds.foldl (visitStep g p) (v, q)).2.length +
          (boundsF g \ (ds.foldl (visitStep g p) (v, q)).1).card =
        q.length + (boundsF g \ v).card) := by
  intro ds
  induction ds with
  | nil =>
    intro v q
    exact ⟨Finset.Subset.refl v, fun a ha => ha, fun a ha => Or.inl ha,
      fun a ha => Or.inl ha, rfl⟩
  | cons d ds ih =>
    intro v q
    simp only [List.foldl_cons, visitStep_eq]
    by_cases hc : isValid g (p.1 + d.1, p.2 + d.2) = true ∧
        cellVal g (p.1 + d.1, p.2 + d.2) = 1 ∧ (p.1 + d.1, p.2 + d.2) ∉ v
    · rw [if_pos hc]
      obtain ⟨ih1, ih2, ih3, ih4, ih5⟩ :=
        ih (insert (p.1 + d.1, p.2 + d.2) v) (q ++ [(p.1 + d.1, p.2 + d.2)])
      refine ⟨?_, ?_, ?_, ?_, ?_⟩
      · exact (Finset.subset_insert (p.1 + d.1, p.2 + d.2) v).trans ih1
      · intro a ha
        exact ih2 a (by simp [ha])
      · intro a ha
        rcases ih3 a ha with hmem | hgood
        · rcases List.mem_append.mp hmem with h' | h'
          · exact Or.inl h'
          · have ha' : a = (p.1 + d.1, p.2 + d.2) := by simpa using h'
            subst ha'
            exact Or.inr ⟨ih1 (Finset.mem_insert_self _ v), hc.1⟩
        · exact Or.inr hgood
      · intro a ha
        rcases ih4 a ha with hins | hq'
        · rcases Finset.mem_insert.mp hins with rfl | h'
          · exact Or.inr (ih2 _ (by simp))
          · exact Or.inl h'
        · exact Or.inr hq'
      · have hn_mem : (p.1 + d.1, p.2 + d.2) ∈ boundsF g \ v :=
          Finset.mem_sdiff.mpr ⟨mem_boundsF.mpr hc.1, hc.2.2⟩
        have hcard : (boundsF g \ insert (p.1 + d.1, p.2 + d.2) v).card + 1 =
            (boundsF g \ v).card := by
          rw [Finset.sdiff_insert]
          exact Finset.card_erase_add_one hn_mem
        have hlen : (q ++ [(p.1 + d.1, p.2 + d.2)]).length = q.length + 1 := by
          simp
        omega
    · rw [if_neg hc]
      exact ih v q

lemma inBox4_extendBox_self (b : Box4) (p : Pos) : inBox4 (extendBox b p) p := by
  simp only [inBox4, extendBox]
  omega

lemma inBox4_extendBox_mono {b : Box4} {p a : Pos} (h : inBox4 b a) :
    inBox4 (extendBox b p) a := by
  simp only [inBox4, extendBox] at h ⊢
  omega

lemma boxInv_extendBox {g : List (List ℕ)} {b : Box4} {p : Pos}
    (hb : boxInv g b) (hp : isValid g p = true) : boxInv g (extendBox b p) := by
  simp only [isValid, Bool.and_eq_true, decide_eq_true_eq] at hp
  simp only [boxInv, extendBox] at hb ⊢
  omega

/-- The main BFS loop invariant: with the stated queue/fuel/box
hypotheses, when the loop finishes every visited cell either satisfied
the entry predicate `P` (it was visited before this traversal) or lies in
the final extremes box; the box stays inside the grid; the visited set
only grows. -/
lemma bfsLoop_spec (g : List (List ℕ)) (P : Pos → Prop) :
    ∀ (fuel : ℕ) (q : List Pos) (v : Finset Pos) (b : Box4),
      (∀ a ∈ q, a ∈ v) →
      (∀ a ∈ q, isValid g a = true) →
      q.length + (boundsF g \ v).card < fuel →
      (∀ a ∈ v, P a ∨ a ∈ q ∨ inBox4 b a) →
      boxInv g b →
      (∀ a ∈ (bfsLoop g fuel q v b).1,
          P a ∨ inBox4 (bfsLoop g fuel q v b).2 a) ∧
        boxInv g (bfsLoop g fuel q v b).2 ∧
        v ⊆ (bfsLoop g fuel q v b).1 := by
  intro fuel
  induction fuel with
  | zero =>
    intro q v b _ _ hfuel _ _
    exact absurd hfuel (by omega)
  | succ fuel ih =>
    intro q v b hq hqvalid hfuel hcov hbox
    cases q with
    | nil =>
      refine ⟨?_, hbox, Finset.Subset.refl v⟩
      intro a ha
      rcases hcov a ha with h | h | h
      · exact Or.inl h
      · exact absurd h (List.not_mem_nil a)
      · exact Or.inr h
    | cons p rest =>
      have hstep : bfsLoop g (fuel + 1) (p :: rest) v b =
          bfsLoop g fuel (directions.foldl (visitStep g p) (v, rest)).2
            (directions.foldl (visitStep g p) (v, rest)).1 (extendBox b p) := rfl
      rw [hstep]
      obtain ⟨f1, f2, f3, f4, f5⟩ := visitFold_spec g p directions v rest
      have hpvalid : isValid g p = true := hqvalid p (List.mem_cons_self p rest)
      obtain ⟨r1, r2, r3⟩ := ih (directions.foldl (visitStep g p) (v, rest)).2
        (directions.foldl (visitStep g p) (v, rest)).1 (extendBox b p)
        (by
          intro a ha
          rcases f3 a ha with h | h
          · exact f1 (hq a (List.mem_cons_of_mem p h))
          · exact h.1)
        (by
          intro a ha
          rcases f3 a ha with h | h
          · exact hqvalid a (List.mem_cons_of_mem p h)
          · exact h.2)
        (by
          have hlen : (p :: rest).length = rest.length + 1 := rfl
          omega)
        (by
          intro a ha
          rcases f4 a ha with hv | hq'
          · rcases hcov a hv with h | h | h
            · exact Or.inl h
            · rcases List.mem_cons.mp h with rfl | h'
              · exact Or.inr (Or.inr (inBox4_extendBox_self b a))
              · exact Or.inr (Or.inl (f2 a h'))
            · exact Or.inr (Or.inr (inBox4_extendBox_mono h))
          · exact Or.inr (Or.inl hq'))
        (boxInv_extendBox hbox hpvalid)
      exact ⟨r1, r2, Finset.Subset.trans f1 r3⟩

lemma inBB_mk_inBox4 (b : Box4) (a : Pos) :
    inBB ⟨b.minX, b.minY, b.maxX - b.minX + 1, b.maxY - b.minY + 1⟩ a ↔
      inBox4 b a := by
  simp only [inBB, inBox4]
  omega

lemma wellFormedBB_mk {g : List (List ℕ)} {b : Box4} (h : boxInv g b) :
    wellFormedBB g ⟨b.minX, b.minY, b.maxX - b.minX + 1, b.maxY - b.minY + 1⟩ := by
  simp only [wellFormedBB, boxInv] at h ⊢
  omega

/-- What one `bfs` call guarantees: every cell it visits beyond the
incoming set is covered by the emitted box; the emitted box is well
formed; the start cell and all incoming visited cells remain visited. -/
lemma bfs_spec (g : List (List ℕ)) (start : Pos) (v : Finset Pos)
    (hstart : isValid g start = true) :
    (∀ a ∈ (bfs g start v).1, a ∈ v ∨ inBB (bfs g start v).2 a) ∧
      wellFormedBB g (bfs g start v).2 ∧
      insert start v ⊆ (bfs g start v).1 := by
  have hstart' : (0 ≤ start.1 ∧ start.1 < (gridCols g : ℤ)) ∧
      0 ≤ start.2 ∧ start.2 < (gridRows g : ℤ) := by
    have := hstart
    simp only [isValid, Bool.and_eq_true, decide_eq_true_eq] at this
    exact ⟨⟨this.1.1.1, this.1.1.2⟩, this.1.2, this.2⟩
  have hcard : (boundsF g \ insert start v).card ≤ gridCols g * gridRows g := by
    calc (boundsF g \ insert start v).card ≤ (boundsF g).card :=
          Finset.card_le_card Finset.sdiff_subset
      _ = gridCols g * gridRows g := card_boundsF g
  have hfuel : ([start] : List Pos).length +
      (boundsF g \ insert start v).card < bfsFuel g := by
    have hb : bfsFuel g = gridRows g * gridCols g + 2 := rfl
    have hl : ([start] : List Pos).length = 1 := rfl
    have hmul : gridRows g * gridCols g = gridCols g * gridRows g :=
      Nat.mul_comm (gridRows g) (gridCols g)
    omega
  obtain ⟨r1, r2, r3⟩ := bfsLoop_spec g (fun a => a ∈ v) (bfsFuel g) [start]
    (insert start v) ⟨start.1, start.1, start.2, start.2⟩
    (by
      intro a ha
      have : a = start := by simpa using ha
      subst this
      exact Finset.mem_insert_self a v)
    (by
      intro a ha
      have : a = start := by simpa using ha
      subst this
      exact hstart)
    hfuel
    (by
      intro a ha
      rcases Finset.mem_insert.mp ha with rfl | h
      · exact Or.inr (Or.inl (by simp))
      · exact Or.inl h)
    (by
      simp only [boxInv]
      omega)
  refine ⟨?_, ?_, ?_⟩
  · intro a ha
    rcases r1 a ha with h | h
    · exact Or.inl h
    · exact Or.inr ((inBB_mk_inBox4 _ a).mpr h)
  · exact wellFormedBB_mk r2
  · exact r3

/-- Invariants of the outer row-major scan: every visited cell is
covered by some emitted box, every emitted box is well formed, every
occupied scanned cell ends up visited, and the visited set grows. -/
lemma scanFold_spec (g : List (List ℕ)) :
    ∀ (cs : List Pos) (st : Finset Pos × List BBox),
      (∀ p ∈ cs, isValid g p = true) →
      (∀ a ∈ st.1, ∃ bb ∈ st.2, inBB bb a) →
      (∀ bb ∈ st.2, wellFormedBB g bb) →
      (∀ a ∈ (cs.foldl (scanCell g) st).1,
          ∃ bb ∈ (cs.foldl (scanCell g) st).2, inBB bb a) ∧
        (∀ bb ∈ (cs.foldl (scanCell g) st).2, wellFormedBB g bb) ∧
        (∀ p ∈ cs, cellVal g p = 1 → p ∈ (cs.foldl (scanCell g) st).1) ∧
        st.1 ⊆ (cs.foldl (scanCell g) st).1 := by
  intro cs
  induction cs with
  | nil =>
    intro st _ hcov hwf
    exact ⟨hcov, hwf, fun p hp => absurd hp (List.not_mem_nil p),
      Finset.Subset.refl _⟩
  | cons p cs ih =>
    intro st hvalid hcov hwf
    simp only [List.foldl_cons]
    by_cases hc : cellVal g p = 1 ∧ p ∉ st.1
    · have hstep : scanCell g st p =
          ((bfs g p st.1).1, st.2 ++ [(bfs g p st.1).2]) := by
        simp only [scanCell, if_pos hc]
      rw [hstep]
      have hpvalid := hvalid p (List.mem_cons_self p cs)
      obtain ⟨b1, b2, b3⟩ := bfs_spec g p st.1 hpvalid
      have hcov' : ∀ a ∈ (bfs g p st.1).1,
          ∃ bb ∈ st.2 ++ [(bfs g p st.1).2], inBB bb a := by
        intro a ha
        rcases b1 a ha with h | h
        · obtain ⟨bb, hbb, hin⟩ := hcov a h
          exact ⟨bb, by simp [hbb], hin⟩
        · exact ⟨(bfs g p st.1).2, by simp, h⟩
      have hwf' : ∀ bb ∈ st.2 ++ [(bfs g p st.1).2], wellFormedBB g bb := by
        intro bb hbb
        rcases List.mem_append.mp hbb with h | h
        · exact hwf bb h
        · have hb : bb = (bfs g p st.1).2 := by simpa using h
          rw [hb]
          exact b2
      obtain ⟨r1, r2, r3, r4⟩ :=
        ih ((bfs g p st.1).1, st.2 ++ [(bfs g p st.1).2])
          (fun p' hp' => hvalid p' (List.mem_cons_of_mem p hp')) hcov' hwf'
      refine ⟨r1, r2, ?_, ?_⟩
      · intro p' hp' hval
        rcases List.mem_cons.mp hp' with rfl | h'
        · exact r4 (b3 (Finset.mem_insert_self p' st.1))
        · exact r3 p' h' hval
      · intro a ha
        exact r4 (b3 (Finset.mem_insert_of_mem ha))
    · have hstep : scanCell g st p = st := by
        simp only [scanCell, if_neg hc]
      rw [hstep]
      obtain ⟨r1, r2, r3, r4⟩ :=
        ih st (fun p' hp' => hvalid p' (List.mem_cons_of_mem p hp')) hcov hwf
      refine ⟨r1, r2, ?_, r4⟩
      intro p' hp' hval
      rcases List.mem_cons.mp hp' with rfl | h'
      · have hmem : p' ∈ st.1 := by
          by_contra hns
          exact hc ⟨hval, hns⟩
        exact r4 hmem
      · exact r3 p' h' hval

lemma allCells_valid {g : List (List ℕ)} (hrect : Rectangular g) :
    ∀ p ∈ allCells g, isValid g p = true := by
  intro p hp
  obtain ⟨y, hy, hpin⟩ := List.mem_flatMap.mp hp
  obtain ⟨x, hx, hpx⟩ := List.mem_map.mp hpin
  have hy2 : y < g.length := List.mem_range.mp hy
  have hx1 : x < (g.getD y []).length := List.mem_range.mp hx
  have hmem : g.getD y [] ∈ g := by
    rw [List.getD_eq_getElem g [] hy2]
    exact List.getElem_mem hy2
  have hrow : (g.getD y []).length = gridCols g := hrect _ hmem
  have hx2 : x < gridCols g := by rw [← hrow]; exact hx1
  have hrowsEq : gridRows g = g.length := rfl
  subst hpx
  simp only [isValid, Bool.and_eq_true, decide_eq_true_eq]
  omega

lemma mem_allCells {g : List (List ℕ)} (hrect : Rectangular g) {p : Pos}
    (hp : isValid g p = true) : p ∈ allCells g := by
  simp only [isValid, Bool.and_eq_true, decide_eq_true_eq] at hp
  obtain ⟨⟨⟨h1, h2⟩, h3⟩, h4⟩ := hp
  have hrowsEq : gridRows g = g.length := rfl
  have hyl : p.2.toNat < g.length := by omega
  apply List.mem_flatMap.mpr
  refine ⟨p.2.toNat, List.mem_range.mpr hyl, ?_⟩
  apply List.mem_map.mpr
  refine ⟨p.1.toNat, ?_, ?_⟩
  · apply List.mem_range.mpr
    have hmem : g.getD p.2.toNat [] ∈ g := by
      rw [List.getD_eq_getElem g [] hyl]
      exact List.getElem_mem hyl
    rw [hrect _ hmem]
    omega
  · obtain ⟨px, py⟩ := p
    simp only [Prod.mk.injEq]
    constructor <;> simp_all

/-! ## Claim theorems: bounding boxes -/

/-- Counterexample to claim C1 on a rectangular 3×5 grid (a C-shaped
component around an isolated centre cell): the first emitted box covers
the unoccupied cell `(1,1)`, and the occupied cell `(2,2)` lies inside
both distinct emitted boxes. -/
theorem bounding_boxes_exact_cover_cex :
    Rectangular [[1,1,1],[1,0,0],[1,0,1],[1,0,0],[1,1,1]] ∧
      getBoundingBoxesFromGrid [[1,1,1],[1,0,0],[1,0,1],[1,0,0],[1,1,1]] =
        [⟨0,0,3,5⟩, ⟨2,2,1,1⟩] ∧
      inBB ⟨0,0,3,5⟩ (1,1) ∧
      cellVal [[1,1,1],[1,0,0],[1,0,1],[1,0,0],[1,1,1]] (1,1) = 0 ∧
      inBB ⟨0,0,3,5⟩ (2,2) ∧ inBB ⟨2,2,1,1⟩ (2,2) ∧
      (BBox.mk 0 0 3 5 ≠ BBox.mk 2 2 1 1) := by
  decide

/-- Claim C1 amended: on every rectangular grid, every occupied cell
lies inside some emitted box (the boxes may additionally cover
unoccupied cells and may overlap, as the counterexample shows). -/
theorem bounding_boxes_cover_occupied (g : List (List ℕ))
    (hrect : Rectangular g) (p : Pos) (hp : isValid g p = true)
    (hval : cellVal g p = 1) :
    ∃ bb ∈ getBoundingBoxesFromGrid g, inBB bb p := by
  have hr := scanFold_spec g (allCells g) (∅, []) (allCells_valid hrect)
    (fun a ha => absurd ha (Finset.not_mem_empty a))
    (fun b hb => absurd hb (List.not_mem_nil b))
  exact hr.1 p (hr.2.2.1 p (mem_allCells hrect hp) hval)

/-- Witness for C1's amended theorem: the diagonal grid `[[1,0],[0,1]]`
merges into one box that covers the occupied cell `(1,1)`. -/
theorem bounding_boxes_cover_occupied_witness :
    ∃ bb ∈ getBoundingBoxesFromGrid [[1,0],[0,1]], inBB bb (1,1) :=
  bounding_boxes_cover_occupied [[1,0],[0,1]] (by decide) (1,1) (by decide)
    (by decide)

/-- Claim C10: every box emitted on a rectangular grid has width and
height at least 1 and lies entirely within the grid bounds. -/
theorem bounding_boxes_well_formed (g : List (List ℕ))
    (hrect : Rectangular g) :
    ∀ bb ∈ getBoundingBoxesFromGrid g,
      0 ≤ bb.x ∧ 0 ≤ bb.y ∧ 1 ≤ bb.w ∧ 1 ≤ bb.h ∧
        bb.x + bb.w ≤ (gridCols g : ℤ) ∧ bb.y + bb.h ≤ (gridRows g : ℤ) := by
  intro bb hbb
  have hr := scanFold_spec g (allCells g) (∅, []) (allCells_valid hrect)
    (fun a ha => absurd ha (Finset.not_mem_empty a))
    (fun b hb => absurd hb (List.not_mem_nil b))
  exact hr.2.1 bb hbb

/-- Witness for C10 on the L-shaped grid `[[1,0],[1,1]]`. -/
theorem bounding_boxes_well_formed_witness :
    (BBox.mk 0 0 2 2 ∈ getBoundingBoxesFromGrid [[1,0],[1,1]]) ∧
      (0 ≤ (BBox.mk 0 0 2 2).x ∧ 0 ≤ (BBox.mk 0 0 2 2).y ∧
        1 ≤ (BBox.mk 0 0 2 2).w ∧ 1 ≤ (BBox.mk 0 0 2 2).h ∧
        (BBox.mk 0 0 2 2).x + (BBox.mk 0 0 2 2).w ≤
          (gridCols [[1,0],[1,1]] : ℤ) ∧
        (BBox.mk 0 0 2 2).y + (BBox.mk 0 0 2 2).h ≤
          (gridRows [[1,0],[1,1]] : ℤ)) :=
  ⟨by decide, bounding_boxes_well_formed [[1,0],[1,1]] (by decide)
    (BBox.mk 0 0 2 2) (by decide)⟩

end Cascade
